import Mathlib

/-!
Verification of the Sonnet `Variable` entity layer (src/SonnetCpp/Variable.h).

Shallow embedding of the Variable entity from `src/src/SonnetCpp/Variable.h`:
bounds/type/name setters with solver notification, the reference-counted
freeze/unfreeze state machine, solver-driven assignment, the feasibility
check, id/naming construction, the bulk factories, and the relational
operator overloads.

Doubles are modelled as rationals (`ℚ`). A mutation is modelled as a pure
function from the variable state to the new state paired with the list of
notifications sent to attached solvers, in emission order. Attached solvers
are identified by natural numbers. The process-wide `numberOfVariables`
counter is threaded explicitly through construction.

`Utils.h` (the `MathUtils` tolerance helpers), `ModelEntity.h` and the
`Expression`/`Constraint` classes are not part of the sources; those pieces
are modelled from the specification and marked as such.
-/

namespace Sonnet

/-- The types of variables: Continuous and Integer (enum `VariableType`). -/
inductive VariableType where
  | Continuous
  | Integer
deriving DecidableEq, Repr

namespace MathUtils

/-- Modelled from the spec: `Utils.h` (MathUtils) is not under the sources.
The spec requires "an epsilon-aware comparison for numeric fields
(floating-point equality must never be used directly; a tolerance-based
comparator decides whether the value changed)". We fix a positive tolerance. -/
def eps : ℚ := 1 / 100000

/-- Whether two rationals are equal within the tolerance `eps`, computed by
integer cross-multiplication so that the kernel can evaluate it; the lemma
`diffLeEps_iff` identifies it with `|a - b| ≤ eps`. -/
def diffLeEps (a b : ℚ) : Bool :=
  (a.num * b.den - b.num * a.den).natAbs * 100000 ≤ a.den * b.den

/-- The test `diffLeEps` computes the tolerance comparison `|a - b| ≤ eps`. -/
theorem diffLeEps_iff (a b : ℚ) : diffLeEps a b = true ↔ |a - b| ≤ eps := by
  unfold diffLeEps eps
  rw [decide_eq_true_iff]
  have ha : (0:ℚ) < (a.den : ℚ) := by exact_mod_cast a.pos
  have hb : (0:ℚ) < (b.den : ℚ) := by exact_mod_cast b.pos
  have hab : a - b = ((a.num * b.den - b.num * a.den : ℤ) : ℚ) / ((a.den * b.den : ℕ) : ℚ) := by
    conv_lhs => rw [← Rat.num_div_den a, ← Rat.num_div_den b]
    rw [div_sub_div _ _ (ne_of_gt ha) (ne_of_gt hb)]
    push_cast
    ring_nf
  rw [hab, abs_div, abs_of_pos (by positivity : (0:ℚ) < ((a.den * b.den : ℕ) : ℚ)),
    div_le_div_iff₀ (by positivity) (by norm_num : (0:ℚ) < 100000), one_mul,
    ← Int.cast_abs, ← Int.cast_natAbs]
  constructor
  · intro h
    exact_mod_cast h
  · intro h
    exact_mod_cast h

/-- Modelled from the spec: the tolerance-based three-way comparator
`CompareToEps` used by the setters; returns 0 when the two values are
equal within tolerance (see `compareToEps_eq_zero_iff`). -/
def compareToEps (a b : ℚ) : Int :=
  if diffLeEps a b then 0 else if a < b then -1 else 1

/-- The comparator `compareToEps` returns 0 exactly when the two values are equal within
the tolerance `eps` (never by exact equality). -/
theorem compareToEps_eq_zero_iff (a b : ℚ) :
    compareToEps a b = 0 ↔ |a - b| ≤ eps := by
  rw [← diffLeEps_iff]
  unfold compareToEps
  cases hd : diffLeEps a b
  · simp only [Bool.false_eq_true, if_false]
    constructor
    · intro h
      by_cases hab : a < b
      · rw [if_pos hab] at h
        exact absurd h (by decide)
      · rw [if_neg hab] at h
        exact absurd h (by decide)
    · intro h
      exact absurd h (by decide)
  · simp

/-- Whether `a ≤ b + eps`, computed by integer cross-multiplication; the
lemma `leAddEps_iff` identifies it with that inequality. -/
def leAddEps (a b : ℚ) : Bool :=
  decide (a.num * ((b.den : ℤ) * 100000) ≤ (b.num * 100000 + (b.den : ℤ)) * (a.den : ℤ))

/-- The test `leAddEps` computes the tolerance comparison `a ≤ b + eps`. -/
theorem leAddEps_iff (a b : ℚ) : leAddEps a b = true ↔ a ≤ b + eps := by
  unfold leAddEps eps
  rw [decide_eq_true_iff]
  have hbd : (0:ℚ) < (b.den : ℚ) := by exact_mod_cast b.pos
  have had : (0:ℚ) < (a.den : ℚ) := by exact_mod_cast a.pos
  have hb : b + 1/100000 = ((b.num * 100000 + b.den : ℤ) : ℚ) / (((b.den : ℤ) * 100000 : ℤ) : ℚ) := by
    conv_lhs => rw [← Rat.num_div_den b]
    rw [div_add_div _ _ (ne_of_gt hbd) (by norm_num : (100000:ℚ) ≠ 0)]
    push_cast
    ring_nf
  rw [hb, le_div_iff₀ (by positivity)]
  conv_rhs => rw [← Rat.num_div_den a]
  rw [div_mul_eq_mul_div, div_le_iff₀ had]
  constructor
  · intro h
    exact_mod_cast h
  · intro h
    exact_mod_cast h

/-- Modelled from the spec: the tolerance-aware "is-between" check
`IsBetween` used by `IsFeasible` (see `isBetween_iff`). -/
def isBetween (v l u : ℚ) : Bool :=
  leAddEps l v && leAddEps v u

/-- The test `isBetween` computes the tolerance-aware bound check
`l - eps ≤ v ∧ v ≤ u + eps`. -/
theorem isBetween_iff (v l u : ℚ) :
    isBetween v l u = true ↔ l - eps ≤ v ∧ v ≤ u + eps := by
  unfold isBetween
  rw [Bool.and_eq_true, leAddEps_iff, leAddEps_iff, sub_le_iff_le_add]

/-- Modelled from the spec: the tolerance-aware integrality check
`IsInteger` used by `IsFeasible`, computed from the fractional part of the
reduced representation (see `isInteger_iff`). -/
def isInteger (v : ℚ) : Bool :=
  let f := (v.num % (v.den : ℤ)).toNat
  decide (min f (v.den - f) * 100000 ≤ v.den)

/-- The fractional part of a rational in terms of its reduced
numerator and denominator. -/
theorem fract_eq_mod_div (v : ℚ) :
    Int.fract v = ((v.num % (v.den : ℤ) : ℤ) : ℚ) / ((v.den : ℕ) : ℚ) := by
  have hd : ((v.den : ℚ)) ≠ 0 := by
    have := v.pos
    positivity
  have h1 : v.num % (v.den : ℤ) = v.num - v.den * ⌊v⌋ := by
    have h := @Int.mod_nat_eq_sub_mul_floor_rat_div v.num v.den
    rwa [Rat.num_div_den] at h
  rw [h1]
  push_cast
  rw [sub_div, mul_div_cancel_left₀ _ hd, Rat.num_div_den]
  exact (Int.self_sub_floor v).symm

/-- The test `isInteger` computes the tolerance-aware integrality check: the value
is within `eps` of some integer. -/
theorem isInteger_iff (v : ℚ) :
    isInteger v = true ↔ ∃ n : ℤ, |v - (n : ℚ)| ≤ eps := by
  have hdpos : 0 < (v.den : ℤ) := by exact_mod_cast v.pos
  have hdq : (0:ℚ) < (v.den : ℚ) := by exact_mod_cast v.pos
  have hf0 : 0 ≤ v.num % (v.den : ℤ) := Int.emod_nonneg _ (ne_of_gt hdpos)
  have hfd : v.num % (v.den : ℤ) < v.den := Int.emod_lt_of_pos _ hdpos
  have hfr := fract_eq_mod_div v
  have hfr0 : 0 ≤ Int.fract v := Int.fract_nonneg v
  have hfl : Int.fract v = v - ⌊v⌋ := (Int.self_sub_floor v).symm
  have hA : (v.num % (v.den : ℤ)).toNat * 100000 ≤ v.den ↔ Int.fract v ≤ eps := by
    rw [hfr]
    unfold eps
    rw [div_le_div_iff₀ hdq (by norm_num : (0:ℚ) < 100000), one_mul]
    constructor
    · intro h
      have h2 : v.num % (v.den : ℤ) * 100000 ≤ (v.den : ℤ) := by omega
      exact_mod_cast h2
    · intro h
      have h2 : v.num % (v.den : ℤ) * 100000 ≤ (v.den : ℤ) := by exact_mod_cast h
      omega
  have hB : (v.den - (v.num % (v.den : ℤ)).toNat) * 100000 ≤ v.den ↔
      1 - eps ≤ Int.fract v := by
    rw [hfr]
    unfold eps
    have h99 : (1 : ℚ) - 1/100000 = 99999/100000 := by norm_num
    rw [h99, div_le_div_iff₀ (by norm_num : (0:ℚ) < 100000) hdq]
    constructor
    · intro h
      have h2 : (99999 : ℤ) * v.den ≤ (v.num % (v.den : ℤ)) * 100000 := by omega
      exact_mod_cast h2
    · intro h
      have h2 : (99999 : ℤ) * v.den ≤ (v.num % (v.den : ℤ)) * 100000 := by exact_mod_cast h
      omega
  simp only [isInteger, decide_eq_true_eq]
  have hmin : min ((v.num % (v.den : ℤ)).toNat) (v.den - (v.num % (v.den : ℤ)).toNat) * 100000 ≤ v.den ↔
      ((v.num % (v.den : ℤ)).toNat * 100000 ≤ v.den ∨
       (v.den - (v.num % (v.den : ℤ)).toNat) * 100000 ≤ v.den) := by
    constructor
    · intro h
      rcases le_total ((v.num % (v.den : ℤ)).toNat) (v.den - (v.num % (v.den : ℤ)).toNat) with hc | hc
      · left
        rwa [min_eq_left hc] at h
      · right
        rwa [min_eq_right hc] at h
    · rintro (h | h)
      · exact le_trans (Nat.mul_le_mul_right _ (min_le_left _ _)) h
      · exact le_trans (Nat.mul_le_mul_right _ (min_le_right _ _)) h
  rw [hmin, hA, hB]
  constructor
  · rintro (h | h)
    · refine ⟨⌊v⌋, ?_⟩
      rw [Int.self_sub_floor, abs_of_nonneg hfr0]
      exact h
    · refine ⟨⌊v⌋ + 1, ?_⟩
      have hlt : v < (⌊v⌋:ℚ) + 1 := Int.lt_floor_add_one v
      push_cast
      rw [abs_of_nonpos (by linarith)]
      linarith [h, hfl]
  · rintro ⟨n, hn⟩
    rcases le_or_lt n ⌊v⌋ with hc | hc
    · left
      have h1 : (n:ℚ) ≤ (⌊v⌋:ℚ) := by exact_mod_cast hc
      have h2 : (⌊v⌋:ℚ) ≤ v := Int.floor_le v
      have h3 : v - (n:ℚ) ≤ |v - n| := le_abs_self _
      linarith [hfl, hn]
    · right
      have h1 : (⌊v⌋:ℚ) + 1 ≤ (n:ℚ) := by exact_mod_cast hc
      have h3 : (n:ℚ) - v ≤ |v - n| := by
        rw [abs_sub_comm]
        exact le_abs_self _
      linarith [hfl, hn]

/-- Modelled from the spec: `MathUtils::getInfinity()`, the default upper
bound. Rationals have no infinity, so a large constant stands in; no claim
depends on its magnitude. -/
def getInfinity : ℚ := 10 ^ 30

end MathUtils

/-- One notification sent to an attached solver, tagged with the receiving
solver id and the emitting variable id (the solver capability interface:
`SetVariableUpper`, `SetVariableLower`, `SetVariableType`,
`SetVariableName`, `SetVariableBounds`). -/
inductive Notification where
  | setVariableUpper (solverId varId : Nat) (value : ℚ)
  | setVariableLower (solverId varId : Nat) (value : ℚ)
  | setVariableType (solverId varId : Nat) (type : VariableType)
  | setVariableName (solverId varId : Nat) (name : String)
  | setVariableBounds (solverId varId : Nat) (lower upper : ℚ)
deriving DecidableEq, Repr

/-- The state of one `Variable` (fields of `Variable` plus, modelled from
the spec, the `ModelEntity` base state: name, assigned solver/offset and
the attached-solver set). The source leaves `value`/`reducedCost`
uninitialized at construction; the model initializes them to 0, and the
`assignedSolver` flag records whether a solver has assigned the variable. -/
structure Variable where
  id : Nat
  name : String
  lower : ℚ
  upper : ℚ
  type : VariableType
  frozen : Nat
  value : ℚ
  reducedCost : ℚ
  assignedSolver : Option Nat
  assignedOffset : Option Nat
  solvers : List Nat
deriving DecidableEq, Repr

namespace Variable

/-- Source `Variable::setUpper` (Variable.h lines 230-237): epsilon-aware change
detection, field update, then one `SetVariableUpper(this, upper)` per
attached solver, carrying the already-updated field. -/
def setUpper (x : Variable) (v : ℚ) : Variable × List Notification :=
  if MathUtils.compareToEps x.upper v ≠ 0 then
    let y := { x with upper := v }
    (y, y.solvers.map fun s => Notification.setVariableUpper s y.id y.upper)
  else (x, [])

/-- The `Lower` property setter (Variable.h lines 242-253). -/
def setLower (x : Variable) (v : ℚ) : Variable × List Notification :=
  if MathUtils.compareToEps x.lower v ≠ 0 then
    let y := { x with lower := v }
    (y, y.solvers.map fun s => Notification.setVariableLower s y.id y.lower)
  else (x, [])

/-- The `Type` property setter (Variable.h lines 258-269): exact enum
comparison, field update, then one `SetVariableType(this, type)` per
attached solver. -/
def setType (x : Variable) (v : VariableType) : Variable × List Notification :=
  if x.type ≠ v then
    let y := { x with type := v }
    (y, y.solvers.map fun s => Notification.setVariableType s y.id y.type)
  else (x, [])

/-- The `Name` property setter (Variable.h lines 274-284): exact string
comparison against the current name, base-field update, then one
`SetVariableName(this, Name)` per attached solver. -/
def setName (x : Variable) (v : String) : Variable × List Notification :=
  if x.name ≠ v then
    let y := { x with name := v }
    (y, y.solvers.map fun s => Notification.setVariableName s y.id y.name)
  else (x, [])

/-- Source `Variable::Freeze` (Variable.h lines 299-314): increments the frozen
count; exactly on 1 it reads the current solution value and pins both
bounds to it in every attached solver, returning true; otherwise returns
false with no notification. The entity's own `lower`/`upper` are untouched. -/
def Freeze (x : Variable) : Bool × Variable × List Notification :=
  let y := { x with frozen := x.frozen + 1 }
  if y.frozen = 1 then
    (true, y, y.solvers.map fun s => Notification.setVariableBounds s y.id x.value x.value)
  else (false, y, [])

/-- Source `Variable::UnFreeze` (Variable.h lines 322-340): no-op returning false
when not frozen; otherwise decrements, and exactly on reaching 0 restores
the currently recorded `lower`/`upper` in every attached solver and
returns true. -/
def UnFreeze (x : Variable) : Bool × Variable × List Notification :=
  if x.frozen > 0 then
    let y := { x with frozen := x.frozen - 1 }
    if y.frozen = 0 then
      (true, y, y.solvers.map fun s => Notification.setVariableBounds s y.id y.lower y.upper)
    else (false, y, [])
  else (false, x, [])

/-- Modelled from the spec: `ModelEntity::Assigned`, true once a solver has
assigned this entity. -/
def Assigned (x : Variable) : Bool := x.assignedSolver.isSome

/-- Modelled from the spec: `ModelEntity::Assign(solver, offset)`, the base
entity-assignment contract that records which solver/offset pair the
variable maps to. -/
def AssignBase (x : Variable) (solver offset : Nat) : Variable :=
  { x with assignedSolver := some solver, assignedOffset := some offset }

/-- Source `Variable::Assign` (Variable.h lines 394-399): delegates to the base
assignment and overwrites `value` and `reducedCost`. -/
def Assign (x : Variable) (solver offset : Nat) (value reducedCost : ℚ) : Variable :=
  let y := x.AssignBase solver offset
  { y with value := value, reducedCost := reducedCost }

/-- The `Value` property getter (Variable.h lines 345-356): under `DEBUG`,
throws `SonnetException("Variable has no assigned model!")` when no solver
has assigned the variable; otherwise returns the stored value. The `debug`
flag models the `#if (DEBUG)` conditional compilation. -/
def ValueGet (debug : Bool) (x : Variable) : Except String ℚ :=
  if debug ∧ x.Assigned = false then
    Except.error "Variable has no assigned model!"
  else Except.ok x.value

/-- The `Value` property setter (Variable.h lines 357-360): directly
overwrites the stored value. -/
def setValue (x : Variable) (v : ℚ) : Variable := { x with value := v }

/-- Source `Variable::IsFeasible` (Variable.h lines 375-382). -/
def IsFeasible (x : Variable) : Bool :=
  if MathUtils.isBetween x.value x.lower x.upper = false then false
  else if x.type = VariableType.Integer ∧ MathUtils.isInteger x.value = false then false
  else true

/-- Source `Variable::GutsOfConstructor` (Variable.h lines 95-106): the single
shared initialization routine. Takes the current value of the process-wide
`numberOfVariables` counter and returns the new variable together with the
incremented counter. A non-empty supplied name is kept; otherwise the name
defaults to `Var_<id>`. -/
def GutsOfConstructor (counter : Nat) (name : String) (lower upper : ℚ)
    (type : VariableType) : Variable × Nat :=
  let id := counter
  let nm := if name ≠ "" then name else "Var_" ++ toString id
  ({ id := id, name := nm, lower := lower, upper := upper, type := type,
     frozen := 0, value := 0, reducedCost := 0,
     assignedSolver := none, assignedOffset := none, solvers := [] },
   counter + 1)

/-- Constructor `Variable(VariableType)` (Variable.h lines 49-53). -/
def mkOfType (counter : Nat) (type : VariableType) : Variable × Nat :=
  GutsOfConstructor counter "" 0 MathUtils.getInfinity type

/-- Constructor `Variable(double, double, VariableType)`
(Variable.h lines 62-66). -/
def mkOfBounds (counter : Nat) (lower upper : ℚ) (type : VariableType) :
    Variable × Nat :=
  GutsOfConstructor counter "" lower upper type

/-- Constructor `Variable(const string&, VariableType)`
(Variable.h lines 74-78). -/
def mkOfNameType (counter : Nat) (name : String) (type : VariableType) :
    Variable × Nat :=
  GutsOfConstructor counter name 0 MathUtils.getInfinity type

/-- Constructor `Variable(const string&, double, double, VariableType)`
(Variable.h lines 88-92). -/
def mkOfNameBounds (counter : Nat) (name : String) (lower upper : ℚ)
    (type : VariableType) : Variable × Nat :=
  GutsOfConstructor counter name lower upper type

end Variable

/-- A construction request, one per public constructor of `Variable`. -/
inductive ConstrRequest where
  | ofType (type : VariableType)
  | ofBounds (lower upper : ℚ) (type : VariableType)
  | ofNameType (name : String) (type : VariableType)
  | ofNameBounds (name : String) (lower upper : ℚ) (type : VariableType)
deriving DecidableEq, Repr

namespace ConstrRequest

/-- The name supplied by a construction request (empty when none). -/
def reqName : ConstrRequest → String
  | .ofType _ => ""
  | .ofBounds _ _ _ => ""
  | .ofNameType n _ => n
  | .ofNameBounds n _ _ _ => n

/-- The lower bound supplied by a construction request (default 0). -/
def reqLower : ConstrRequest → ℚ
  | .ofType _ => 0
  | .ofBounds l _ _ => l
  | .ofNameType _ _ => 0
  | .ofNameBounds _ l _ _ => l

/-- The upper bound supplied by a construction request (default infinity). -/
def reqUpper : ConstrRequest → ℚ
  | .ofType _ => MathUtils.getInfinity
  | .ofBounds _ u _ => u
  | .ofNameType _ _ => MathUtils.getInfinity
  | .ofNameBounds _ _ u _ => u

/-- The type supplied by a construction request. -/
def reqType : ConstrRequest → VariableType
  | .ofType t => t
  | .ofBounds _ _ t => t
  | .ofNameType _ t => t
  | .ofNameBounds _ _ _ t => t

end ConstrRequest

/-- Dispatch one construction request to the corresponding constructor,
threading the process-wide counter. -/
def construct (counter : Nat) : ConstrRequest → Variable × Nat
  | .ofType t => Variable.mkOfType counter t
  | .ofBounds l u t => Variable.mkOfBounds counter l u t
  | .ofNameType n t => Variable.mkOfNameType counter n t
  | .ofNameBounds n l u t => Variable.mkOfNameBounds counter n l u t

/-- Run a sequence of constructions left to right, threading the
process-wide `numberOfVariables` counter, returning the constructed
variables in construction order and the final counter. -/
def runConstructions (counter : Nat) : List ConstrRequest → List Variable × Nat
  | [] => ([], counter)
  | r :: rs =>
    let p := construct counter r
    let q := runConstructions p.2 rs
    (p.1 :: q.1, q.2)

namespace Variable

/-- Loop body of the array factory `Variable::New(int n, ...)`
(Variable.h lines 121-132): for each loop index `i`, the name is
`<varname>_<i>` when a base name was given and empty otherwise, and one
variable is constructed through `Variable(name, lower, upper, type)`. -/
def newArrayGo (varname : String) (lower upper : ℚ) (type : VariableType) :
    Nat → Nat → Nat → List Variable × Nat
  | counter, _, 0 => ([], counter)
  | counter, i, Nat.succ m =>
    let name := if varname ≠ "" then varname ++ "_" ++ toString i else ""
    let p := mkOfNameBounds counter name lower upper type
    let q := newArrayGo varname lower upper type p.2 (i + 1) m
    (p.1 :: q.1, q.2)

/-- The array factory `Variable::New(int n, ...)` (Variable.h lines
121-132), threading the process-wide counter. -/
def NewArray (counter n : Nat) (varname : String) (lower upper : ℚ)
    (type : VariableType) : List Variable × Nat :=
  newArrayGo varname lower upper type counter 0 n

/-- Loop body of the keyed factory `Variable::New(const list<T>&, ...)`
(Variable.h lines 150-162): one variable per input element, named
`<varname>_<key>` when a base name was given and by the default rule
otherwise, paired with its key in input order. Keys are modelled as
natural numbers (the source formats them with `%i`). -/
def newMapGo (varname : String) (lower upper : ℚ) (type : VariableType) :
    Nat → List Nat → List (Nat × Variable) × Nat
  | counter, [] => ([], counter)
  | counter, k :: ks =>
    let name := if varname ≠ "" then varname ++ "_" ++ toString k else ""
    let p := mkOfNameBounds counter name lower upper type
    let q := newMapGo varname lower upper type p.2 ks
    ((k, p.1) :: q.1, q.2)

/-- The keyed factory `Variable::New(const list<T>&, ...)` (Variable.h
lines 150-162), threading the process-wide counter. -/
def NewMap (counter : Nat) (keys : List Nat) (varname : String)
    (lower upper : ℚ) (type : VariableType) : List (Nat × Variable) × Nat :=
  newMapGo varname lower upper type counter keys

/-- Iterate `Freeze` the given number of times, collecting all
notifications in emission order. -/
def freezeTimes : Nat → Variable → Variable × List Notification
  | 0, x => (x, [])
  | Nat.succ k, x =>
    let r := x.Freeze
    let q := freezeTimes k r.2.1
    (q.1, r.2.2 ++ q.2)

/-- Iterate `UnFreeze` the given number of times, collecting all
notifications in emission order. -/
def unFreezeTimes : Nat → Variable → Variable × List Notification
  | 0, x => (x, [])
  | Nat.succ k, x =>
    let r := x.UnFreeze
    let q := unFreezeTimes k r.2.1
    (q.1, r.2.2 ++ q.2)

end Variable

/-- Modelled from the spec: the `Expression` collaborator, a linear
expression with a constant and a list of (coefficient, variable id)
terms; a Variable converts to a single-term expression. -/
structure Expression where
  constant : ℚ
  terms : List (ℚ × Nat)
deriving DecidableEq, Repr

/-- Modelled from the spec: the relational kind of a constraint. -/
inductive RelationKind where
  | le
  | ge
  | eq
deriving DecidableEq, Repr

/-- Modelled from the spec: the `Constraint` collaborator, built from two
expressions and a relational kind. -/
structure Constraint where
  lhs : Expression
  rhs : Expression
  kind : RelationKind
deriving DecidableEq, Repr

/-- Modelled from the spec: wrapping a Variable into a single-term
`Expression` (the `new Expression(x)` conversion). -/
def Expression.ofVar (x : Variable) : Expression :=
  { constant := 0, terms := [(1, x.id)] }

/-- Modelled from the spec: the constant `Expression` (the
`new Expression(c)` conversion). -/
def Expression.ofConst (c : ℚ) : Expression :=
  { constant := c, terms := [] }

/-- Source `operator ==(double, Variable)` (Variable.h lines 479-482): builds the
constraint `c == x` by delegating to the Expression-level equality. -/
def opEqConstVar (c : ℚ) (x : Variable) : Except String Constraint :=
  Except.ok { lhs := Expression.ofConst c, rhs := Expression.ofVar x, kind := RelationKind.eq }

/-- Source `operator ==(Variable, double)` (Variable.h lines 501-504). -/
def opEqVarConst (x : Variable) (c : ℚ) : Except String Constraint :=
  Except.ok { lhs := Expression.ofVar x, rhs := Expression.ofConst c, kind := RelationKind.eq }

/-- Source `operator ==(Variable, Variable)` (Variable.h lines 523-526). -/
def opEqVarVar (x y : Variable) : Except String Constraint :=
  Except.ok { lhs := Expression.ofVar x, rhs := Expression.ofVar y, kind := RelationKind.eq }

/-- Source `operator !=(double, Variable)` (Variable.h lines 490-493): throws
`SonnetException("Cannot use != operator")`. -/
def opNeqConstVar (_ : ℚ) (_ : Variable) : Except String Constraint :=
  Except.error "Cannot use != operator"

/-- Source `operator !=(Variable, double)` (Variable.h lines 512-515). -/
def opNeqVarConst (_ : Variable) (_ : ℚ) : Except String Constraint :=
  Except.error "Cannot use != operator"

/-- Source `operator !=(Variable, Variable)` (Variable.h lines 534-537). -/
def opNeqVarVar (_ _ : Variable) : Except String Constraint :=
  Except.error "Cannot use != operator"

/-- A sample unattached, unassigned variable used in concrete witnesses:
`Variable(0.0, 10.0, Continuous)` constructed at counter 0. -/
def sampleVar : Variable := (Variable.mkOfBounds 0 0 10 VariableType.Continuous).1

/-- The sample variable with one attached solver (id 7). -/
def attachedVar : Variable := { sampleVar with solvers := [7] }

/-- The attached sample variable after one `Freeze` (frozen count 1). -/
def frozenVar : Variable := (attachedVar.Freeze).2.1

/-- The tolerance comparator reports no change when a value is set to
itself. -/
theorem compareToEps_self (v : ℚ) : MathUtils.compareToEps v v = 0 := by
  simp [MathUtils.compareToEps, MathUtils.diffLeEps]

namespace Variable

/-- Iterating `Freeze` on an already-frozen variable only raises the count
and sends nothing. -/
theorem freezeTimes_of_frozen (k : Nat) (x : Variable) (h : 1 ≤ x.frozen) :
    x.freezeTimes k = ({ x with frozen := x.frozen + k }, []) := by
  induction k generalizing x with
  | zero => rfl
  | succ k ih =>
    have hcond : ¬(({ x with frozen := x.frozen + 1 } : Variable).frozen = 1) := by
      show ¬(x.frozen + 1 = 1)
      omega
    simp only [freezeTimes, Freeze, if_neg hcond]
    rw [ih { x with frozen := x.frozen + 1 } (Nat.le_add_left 1 x.frozen)]
    have harith : x.frozen + 1 + k = x.frozen + (k + 1) := by omega
    simp [harith]

/-- Iterating `Freeze` k ≥ 1 times from the unfrozen state raises the
count to k and sends exactly one pin notification per attached solver. -/
theorem freezeTimes_of_unfrozen (k : Nat) (x : Variable) (h0 : x.frozen = 0) (hk : 1 ≤ k) :
    x.freezeTimes k =
      ({ x with frozen := k },
       x.solvers.map fun s => Notification.setVariableBounds s x.id x.value x.value) := by
  cases k with
  | zero => omega
  | succ k =>
    have hcond : (({ x with frozen := x.frozen + 1 } : Variable).frozen = 1) := by
      show x.frozen + 1 = 1
      omega
    simp only [freezeTimes, Freeze, if_pos hcond]
    rw [freezeTimes_of_frozen k { x with frozen := x.frozen + 1 } (Nat.le_add_left 1 x.frozen)]
    have harith : x.frozen + 1 + k = k + 1 := by omega
    simp [harith]

/-- Iterating `UnFreeze` on an unfrozen variable is a no-op. -/
theorem unFreezeTimes_of_zero (m : Nat) (x : Variable) (h : x.frozen = 0) :
    x.unFreezeTimes m = (x, []) := by
  induction m generalizing x with
  | zero => rfl
  | succ m ih =>
    have hcond : ¬(x.frozen > 0) := by omega
    simp only [unFreezeTimes, UnFreeze, if_neg hcond]
    rw [ih x h]
    rfl

/-- Iterating `UnFreeze` exactly frozen-count many times clears the count
and sends exactly one restore notification per attached solver, carrying
the currently recorded bounds. -/
theorem unFreezeTimes_exact (k : Nat) (x : Variable) (h : x.frozen = k) (hk : 1 ≤ k) :
    x.unFreezeTimes k =
      ({ x with frozen := 0 },
       x.solvers.map fun s => Notification.setVariableBounds s x.id x.lower x.upper) := by
  induction k generalizing x with
  | zero => omega
  | succ k ih =>
    have hpos : x.frozen > 0 := by omega
    simp only [unFreezeTimes, UnFreeze, if_pos hpos]
    cases Nat.eq_zero_or_pos k with
    | inl hk0 =>
      subst hk0
      have hcond : (({ x with frozen := x.frozen - 1 } : Variable).frozen = 0) := by
        show x.frozen - 1 = 0
        omega
      simp only [if_pos hcond]
      rw [unFreezeTimes_of_zero 0 _ hcond]
      simp
      omega
    | inr hkpos =>
      have hcond : ¬(({ x with frozen := x.frozen - 1 } : Variable).frozen = 0) := by
        show ¬(x.frozen - 1 = 0)
        omega
      simp only [if_neg hcond]
      rw [ih { x with frozen := x.frozen - 1 } (by show x.frozen - 1 = k; omega) hkpos]
      simp

/-- Splitting an iteration of `UnFreeze` concatenates the notifications. -/
theorem unFreezeTimes_add (a b : Nat) (x : Variable) :
    x.unFreezeTimes (a + b) =
      (((x.unFreezeTimes a).1.unFreezeTimes b).1,
       (x.unFreezeTimes a).2 ++ ((x.unFreezeTimes a).1.unFreezeTimes b).2) := by
  induction a generalizing x with
  | zero =>
    simp only [Nat.zero_add]
    rfl
  | succ a ih =>
    have hs : a + 1 + b = (a + b) + 1 := by omega
    rw [hs]
    simp only [unFreezeTimes]
    rw [ih (x.UnFreeze).2.1]
    simp [List.append_assoc]

end Variable

end Sonnet

namespace Sonnet

/-- Claim C1: each mutation through setUpper, the Lower setter, the Type
setter or the Name setter is a no-op without any solver notification when
the new value equals the current one (within tolerance for the numeric
bounds), making repeated sets idempotent; when the value differs, the
entity's field is updated and every currently attached solver receives
exactly one corresponding notification carrying the updated value. -/
theorem setter_change_detection_and_propagation (x : Variable) (v : ℚ)
    (t : VariableType) (n : String) :
    (MathUtils.compareToEps x.upper v = 0 → x.setUpper v = (x, [])) ∧
    (MathUtils.compareToEps x.upper v ≠ 0 → x.setUpper v =
      ({ x with upper := v }, x.solvers.map fun s => Notification.setVariableUpper s x.id v)) ∧
    ((x.setUpper v).1.setUpper v = ((x.setUpper v).1, [])) ∧
    (MathUtils.compareToEps x.lower v = 0 → x.setLower v = (x, [])) ∧
    (MathUtils.compareToEps x.lower v ≠ 0 → x.setLower v =
      ({ x with lower := v }, x.solvers.map fun s => Notification.setVariableLower s x.id v)) ∧
    ((x.setLower v).1.setLower v = ((x.setLower v).1, [])) ∧
    (x.type = t → x.setType t = (x, [])) ∧
    (x.type ≠ t → x.setType t =
      ({ x with type := t }, x.solvers.map fun s => Notification.setVariableType s x.id t)) ∧
    ((x.setType t).1.setType t = ((x.setType t).1, [])) ∧
    (x.name = n → x.setName n = (x, [])) ∧
    (x.name ≠ n → x.setName n =
      ({ x with name := n }, x.solvers.map fun s => Notification.setVariableName s x.id n)) ∧
    ((x.setName n).1.setName n = ((x.setName n).1, [])) := by
  have hu1 : ∀ xx : Variable, MathUtils.compareToEps xx.upper v = 0 → xx.setUpper v = (xx, []) := by
    intro xx h
    simp [Variable.setUpper, h]
  have hu2 : ∀ xx : Variable, MathUtils.compareToEps xx.upper v ≠ 0 → xx.setUpper v =
      ({ xx with upper := v }, xx.solvers.map fun s => Notification.setVariableUpper s xx.id v) := by
    intro xx h
    simp [Variable.setUpper, h]
  have hu3 : (x.setUpper v).1.setUpper v = ((x.setUpper v).1, []) := by
    by_cases h : MathUtils.compareToEps x.upper v = 0
    · rw [hu1 x h]
      exact hu1 x h
    · rw [hu2 x h]
      exact hu1 _ (compareToEps_self v)
  have hl1 : ∀ xx : Variable, MathUtils.compareToEps xx.lower v = 0 → xx.setLower v = (xx, []) := by
    intro xx h
    simp [Variable.setLower, h]
  have hl2 : ∀ xx : Variable, MathUtils.compareToEps xx.lower v ≠ 0 → xx.setLower v =
      ({ xx with lower := v }, xx.solvers.map fun s => Notification.setVariableLower s xx.id v) := by
    intro xx h
    simp [Variable.setLower, h]
  have hl3 : (x.setLower v).1.setLower v = ((x.setLower v).1, []) := by
    by_cases h : MathUtils.compareToEps x.lower v = 0
    · rw [hl1 x h]
      exact hl1 x h
    · rw [hl2 x h]
      exact hl1 _ (compareToEps_self v)
  have ht1 : ∀ xx : Variable, xx.type = t → xx.setType t = (xx, []) := by
    intro xx h
    simp [Variable.setType, h]
  have ht2 : ∀ xx : Variable, xx.type ≠ t → xx.setType t =
      ({ xx with type := t }, xx.solvers.map fun s => Notification.setVariableType s xx.id t) := by
    intro xx h
    simp [Variable.setType, h]
  have ht3 : (x.setType t).1.setType t = ((x.setType t).1, []) := by
    by_cases h : x.type = t
    · rw [ht1 x h]
      exact ht1 x h
    · rw [ht2 x h]
      exact ht1 _ rfl
  have hn1 : ∀ xx : Variable, xx.name = n → xx.setName n = (xx, []) := by
    intro xx h
    simp [Variable.setName, h]
  have hn2 : ∀ xx : Variable, xx.name ≠ n → xx.setName n =
      ({ xx with name := n }, xx.solvers.map fun s => Notification.setVariableName s xx.id n) := by
    intro xx h
    simp [Variable.setName, h]
  have hn3 : (x.setName n).1.setName n = ((x.setName n).1, []) := by
    by_cases h : x.name = n
    · rw [hn1 x h]
      exact hn1 x h
    · rw [hn2 x h]
      exact hn1 _ rfl
  exact ⟨hu1 x, hu2 x, hu3, hl1 x, hl2 x, hl3, ht1 x, ht2 x, ht3, hn1 x, hn2 x, hn3⟩

/-- Concrete run of the setter protocol: an unchanged set is silent, a
changed set updates the field and notifies the attached solver once. -/
theorem setter_change_detection_witness :
    sampleVar.setUpper 10 = (sampleVar, []) ∧
    attachedVar.setUpper 5 =
      ({ attachedVar with upper := 5 }, [Notification.setVariableUpper 7 attachedVar.id 5]) ∧
    attachedVar.setLower 0 = (attachedVar, []) ∧
    attachedVar.setLower 1 =
      ({ attachedVar with lower := 1 }, [Notification.setVariableLower 7 attachedVar.id 1]) ∧
    attachedVar.setType VariableType.Continuous = (attachedVar, []) ∧
    attachedVar.setType VariableType.Integer =
      ({ attachedVar with type := VariableType.Integer },
       [Notification.setVariableType 7 attachedVar.id VariableType.Integer]) ∧
    attachedVar.setName "Var_0" = (attachedVar, []) ∧
    attachedVar.setName "z" =
      ({ attachedVar with name := "z" }, [Notification.setVariableName 7 attachedVar.id "z"]) := by
  have ha := setter_change_detection_and_propagation attachedVar 5 VariableType.Integer "z"
  have hb := setter_change_detection_and_propagation attachedVar 0 VariableType.Continuous "Var_0"
  have hc := setter_change_detection_and_propagation sampleVar 10 VariableType.Continuous ""
  have hd := setter_change_detection_and_propagation attachedVar 1 VariableType.Continuous ""
  refine ⟨hc.1 (by decide), (ha.2.1 (by decide)).trans (by decide),
    hb.2.2.2.1 (by decide), (hd.2.2.2.2.1 (by decide)).trans (by decide),
    hb.2.2.2.2.2.2.1 (by decide),
    (ha.2.2.2.2.2.2.2.1 (by decide)).trans (by decide),
    hb.2.2.2.2.2.2.2.2.2.1 (by decide),
    (ha.2.2.2.2.2.2.2.2.2.2.1 (by decide)).trans (by decide)⟩

end Sonnet

namespace Sonnet

/-- Claim C2: Freeze increments the frozen count, leaves the entity's own
bounds untouched, and exactly on the 0-to-1 transition reads the current
solution value, instructs every attached solver to pin both bounds to it,
and returns true; when the count was already at least 1 it returns false
and sends nothing. -/
theorem freeze_pins_current_value (x : Variable) :
    ((x.Freeze).2.1.frozen = x.frozen + 1) ∧
    ((x.Freeze).2.1.lower = x.lower) ∧
    ((x.Freeze).2.1.upper = x.upper) ∧
    (x.frozen = 0 → (x.Freeze).1 = true ∧
      (x.Freeze).2.2 = x.solvers.map fun s => Notification.setVariableBounds s x.id x.value x.value) ∧
    (1 ≤ x.frozen → (x.Freeze).1 = false ∧ (x.Freeze).2.2 = []) := by
  by_cases h : x.frozen = 0
  · have hcond : x.frozen + 1 = 1 := by omega
    have hfz : x.Freeze = (true, { x with frozen := x.frozen + 1 },
        x.solvers.map fun s => Notification.setVariableBounds s x.id x.value x.value) := by
      simp only [Variable.Freeze]
      rw [if_pos hcond]
    rw [hfz]
    exact ⟨rfl, rfl, rfl, fun _ => ⟨rfl, rfl⟩, fun habs => absurd habs (by omega)⟩
  · have hcond : ¬(x.frozen + 1 = 1) := by omega
    have hfz : x.Freeze = (false, { x with frozen := x.frozen + 1 }, []) := by
      simp only [Variable.Freeze]
      rw [if_neg hcond]
    rw [hfz]
    exact ⟨rfl, rfl, rfl, fun hz => absurd hz h, fun _ => ⟨rfl, rfl⟩⟩

/-- Concrete run of Freeze: first freeze pins the value at the attached
solver and returns true; a second freeze returns false and sends nothing. -/
theorem freeze_pins_current_value_witness :
    ((attachedVar.Freeze).1 = true ∧
     (attachedVar.Freeze).2.2 = [Notification.setVariableBounds 7 0 0 0]) ∧
    ((frozenVar.Freeze).1 = false ∧ (frozenVar.Freeze).2.2 = []) := by
  constructor
  · have h := (freeze_pins_current_value attachedVar).2.2.2.1 (by decide)
    exact ⟨h.1, h.2.trans (by decide)⟩
  · exact (freeze_pins_current_value frozenVar).2.2.2.2 (by decide)

/-- Claim C3: UnFreeze on an unfrozen variable is a no-op returning false;
otherwise it decrements the count and exactly on reaching 0 restores the
entity's currently recorded bounds at every attached solver and returns
true; k freezes followed by at least k unfreezes produce exactly one pin
and one restore notification per attached solver, and the extra unfreezes
do nothing. -/
theorem unfreeze_restores_and_symmetry (x : Variable) (k m : Nat) :
    (x.frozen = 0 → x.UnFreeze = (false, x, [])) ∧
    (x.frozen = 1 → x.UnFreeze =
      (true, { x with frozen := 0 },
       x.solvers.map fun s => Notification.setVariableBounds s x.id x.lower x.upper)) ∧
    (2 ≤ x.frozen → x.UnFreeze = (false, { x with frozen := x.frozen - 1 }, [])) ∧
    (x.frozen = 0 → x.unFreezeTimes m = (x, [])) ∧
    (x.frozen = 0 → 1 ≤ k →
      (x.freezeTimes k).2 =
        x.solvers.map (fun s => Notification.setVariableBounds s x.id x.value x.value) ∧
      ((x.freezeTimes k).1.unFreezeTimes (k + m)).2 =
        x.solvers.map (fun s => Notification.setVariableBounds s x.id x.lower x.upper) ∧
      ((x.freezeTimes k).1.unFreezeTimes (k + m)).1 = { x with frozen := 0 }) := by
  refine ⟨?_, ?_, ?_, ?_, ?_⟩
  · intro h
    unfold Variable.UnFreeze
    rw [if_neg (by omega : ¬(x.frozen > 0))]
  · intro h
    have hpos : x.frozen > 0 := by omega
    have hcond : (({ x with frozen := x.frozen - 1 } : Variable).frozen = 0) := by
      show x.frozen - 1 = 0
      omega
    simp only [Variable.UnFreeze, if_pos hpos, if_pos hcond]
    have hz : x.frozen - 1 = 0 := hcond
    rw [hz]
  · intro h
    have hpos : x.frozen > 0 := by omega
    have hcond : ¬(({ x with frozen := x.frozen - 1 } : Variable).frozen = 0) := by
      show ¬(x.frozen - 1 = 0)
      omega
    simp only [Variable.UnFreeze, if_pos hpos, if_neg hcond]
  · intro h
    exact Variable.unFreezeTimes_of_zero m x h
  · intro h0 hk
    rw [Variable.freezeTimes_of_unfrozen k x h0 hk]
    refine ⟨rfl, ?_, ?_⟩
    · rw [Variable.unFreezeTimes_add k m]
      rw [Variable.unFreezeTimes_exact k { x with frozen := k } rfl hk]
      rw [Variable.unFreezeTimes_of_zero m _ rfl]
      simp
    · rw [Variable.unFreezeTimes_add k m]
      rw [Variable.unFreezeTimes_exact k { x with frozen := k } rfl hk]
      rw [Variable.unFreezeTimes_of_zero m _ rfl]

/-- Concrete run of the freeze/unfreeze state machine: unfreezing an
unfrozen variable is silent; two freezes then three unfreezes produce
exactly one pin and one restore notification at the attached solver. -/
theorem unfreeze_restores_and_symmetry_witness :
    (sampleVar.UnFreeze = (false, sampleVar, [])) ∧
    (frozenVar.UnFreeze = (true, { frozenVar with frozen := 0 },
       [Notification.setVariableBounds 7 0 0 10])) ∧
    ((attachedVar.freezeTimes 2).2 = [Notification.setVariableBounds 7 0 0 0] ∧
     ((attachedVar.freezeTimes 2).1.unFreezeTimes 3).2 =
       [Notification.setVariableBounds 7 0 0 10]) := by
  have hs := unfreeze_restores_and_symmetry sampleVar 1 0
  have hf := unfreeze_restores_and_symmetry frozenVar 1 0
  have ha := unfreeze_restores_and_symmetry attachedVar 2 1
  refine ⟨hs.1 (by decide), (hf.2.1 (by decide)).trans (by decide), ?_, ?_⟩
  · exact ((ha.2.2.2.2 (by decide) (by decide)).1).trans (by decide)
  · exact ((ha.2.2.2.2 (by decide) (by decide)).2.1).trans (by decide)

/-- The claim that no bound-change notification reaches an attached solver
while the variable is frozen is false: on the frozen sample variable with
one attached solver, setUpper sends an upper-bound notification at once. -/
theorem frozen_setter_claim_counterexample :
    frozenVar.frozen > 0 ∧ frozenVar.solvers = [7] ∧
    (frozenVar.setUpper 5).2 = [Notification.setVariableUpper 7 frozenVar.id 5] ∧
    (frozenVar.setUpper 5).2 ≠ [] := by decide

/-- Claim C4 (amended): while a Variable is frozen, bound changes are
applied immediately to the entity's own lower/upper fields and are also
propagated immediately to every attached solver, exactly as when unfrozen;
the setters do not consult the freeze state. -/
theorem frozen_setter_updates_and_notifies (x : Variable) (v : ℚ)
    (_h1froz : 1 ≤ x.frozen) :
    (MathUtils.compareToEps x.upper v ≠ 0 →
      (x.setUpper v).1.upper = v ∧ (x.setUpper v).1.frozen = x.frozen ∧
      (x.setUpper v).2 = x.solvers.map fun s => Notification.setVariableUpper s x.id v) ∧
    (MathUtils.compareToEps x.lower v ≠ 0 →
      (x.setLower v).1.lower = v ∧ (x.setLower v).1.frozen = x.frozen ∧
      (x.setLower v).2 = x.solvers.map fun s => Notification.setVariableLower s x.id v) := by
  constructor
  · intro h
    simp [Variable.setUpper, h]
  · intro h
    simp [Variable.setLower, h]

/-- Concrete run: a bound change on the frozen sample variable updates the
entity's field and notifies the attached solver immediately. -/
theorem frozen_setter_updates_and_notifies_witness :
    (frozenVar.setUpper 5).1.upper = 5 ∧
    (frozenVar.setUpper 5).2 = [Notification.setVariableUpper 7 frozenVar.id 5] := by
  have h := (frozen_setter_updates_and_notifies frozenVar 5 (by decide)).1 (by decide)
  exact ⟨h.1, h.2.2.trans (by decide)⟩

end Sonnet

namespace Sonnet

theorem construct_shared_init (c : Nat) (r : ConstrRequest) :
    construct c r = Variable.GutsOfConstructor c r.reqName r.reqLower r.reqUpper r.reqType := by
  cases r <;> rfl

theorem construct_snd (c : Nat) (r : ConstrRequest) : (construct c r).2 = c + 1 := by
  cases r <;> rfl

theorem construct_id (c : Nat) (r : ConstrRequest) : (construct c r).1.id = c := by
  cases r <;> rfl

theorem construct_name (c : Nat) (r : ConstrRequest) :
    (construct c r).1.name =
      if r.reqName = "" then "Var_" ++ toString c else r.reqName := by
  rw [construct_shared_init]
  unfold Variable.GutsOfConstructor
  by_cases hn : r.reqName = ""
  · simp [hn]
  · simp [hn]

theorem runConstructions_snd (c : Nat) (reqs : List ConstrRequest) :
    (runConstructions c reqs).2 = c + reqs.length := by
  induction reqs generalizing c with
  | nil => rfl
  | cons r rs ih =>
    simp only [runConstructions]
    rw [construct_snd, ih]
    simp
    omega

theorem runConstructions_ids (c : Nat) (reqs : List ConstrRequest) :
    (runConstructions c reqs).1.map Variable.id = List.range' c reqs.length := by
  induction reqs generalizing c with
  | nil => rfl
  | cons r rs ih =>
    simp only [runConstructions, List.map_cons, List.length_cons]
    rw [List.range'_succ, construct_id, construct_snd, ih]

theorem runConstructions_names (c : Nat) (reqs : List ConstrRequest) :
    (runConstructions c reqs).1.map Variable.name =
      List.zipWith
        (fun r id => if ConstrRequest.reqName r = "" then "Var_" ++ toString id
                     else ConstrRequest.reqName r)
        reqs (List.range' c reqs.length) := by
  induction reqs generalizing c with
  | nil => rfl
  | cons r rs ih =>
    simp only [runConstructions, List.map_cons, List.length_cons]
    rw [List.range'_succ, List.zipWith_cons_cons, construct_name, construct_snd, ih]

end Sonnet

namespace Sonnet

/-- Claim C8: every construction through any of the four public
constructors draws a unique id from the single threaded counter, ids are
strictly increasing in construction order, the name defaults to
`Var_<id>` exactly when no name is supplied, and all four constructors go
through the one shared initialization routine. -/
theorem constructor_ids_and_default_names (counter : Nat) (reqs : List ConstrRequest) :
    ((runConstructions counter reqs).2 = counter + reqs.length) ∧
    ((runConstructions counter reqs).1.map Variable.id = List.range' counter reqs.length) ∧
    (List.Pairwise (fun a b => a < b) ((runConstructions counter reqs).1.map Variable.id)) ∧
    ((runConstructions counter reqs).1.map Variable.name =
      List.zipWith
        (fun r id => if ConstrRequest.reqName r = "" then "Var_" ++ toString id
                     else ConstrRequest.reqName r)
        reqs (List.range' counter reqs.length)) ∧
    (∀ r : ConstrRequest, construct counter r =
      Variable.GutsOfConstructor counter r.reqName r.reqLower r.reqUpper r.reqType) := by
  refine ⟨runConstructions_snd counter reqs, runConstructions_ids counter reqs, ?_,
    runConstructions_names counter reqs, fun r => construct_shared_init counter r⟩
  rw [runConstructions_ids counter reqs]
  exact List.pairwise_lt_range' counter reqs.length 1 Nat.one_pos

/-- Concrete run of the constructors: four constructions through all four
entry points receive ids 0, 1, 2, 3 and the defaulting name rule. -/
theorem constructor_ids_and_default_names_witness :
    (runConstructions 0
      [ConstrRequest.ofType VariableType.Continuous,
       ConstrRequest.ofBounds 1 2 VariableType.Integer,
       ConstrRequest.ofNameType "a" VariableType.Continuous,
       ConstrRequest.ofNameBounds "" 0 1 VariableType.Continuous]).1.map Variable.id =
      [0, 1, 2, 3] ∧
    (runConstructions 0
      [ConstrRequest.ofType VariableType.Continuous,
       ConstrRequest.ofBounds 1 2 VariableType.Integer,
       ConstrRequest.ofNameType "a" VariableType.Continuous,
       ConstrRequest.ofNameBounds "" 0 1 VariableType.Continuous]).1.map Variable.name =
      ["Var_0", "Var_1", "a", "Var_3"] := by
  have h := constructor_ids_and_default_names 0
    [ConstrRequest.ofType VariableType.Continuous,
     ConstrRequest.ofBounds 1 2 VariableType.Integer,
     ConstrRequest.ofNameType "a" VariableType.Continuous,
     ConstrRequest.ofNameBounds "" 0 1 VariableType.Continuous]
  exact ⟨(h.2.1).trans (by decide), (h.2.2.2.1).trans (by decide)⟩

end Sonnet

namespace Sonnet

theorem append_ne_empty (s t : String) (h : s ≠ "") : s ++ t ≠ "" := by
  intro hc
  apply h
  have hd : s.data ++ t.data = [] := by
    rw [← String.data_append, hc]
  have hs : s.data = [] := (List.append_eq_nil.mp hd).1
  cases s
  simp at hs
  simp [hs]

end Sonnet

namespace Sonnet
namespace Variable

theorem mkOfNameBounds_snd (c : Nat) (name : String) (l u : ℚ) (t : VariableType) :
    (mkOfNameBounds c name l u t).2 = c + 1 := rfl

theorem mkOfNameBounds_id (c : Nat) (name : String) (l u : ℚ) (t : VariableType) :
    (mkOfNameBounds c name l u t).1.id = c := rfl

theorem mkOfNameBounds_name_of_ne (c : Nat) (name : String) (l u : ℚ) (t : VariableType)
    (h : name ≠ "") : (mkOfNameBounds c name l u t).1.name = name := by
  unfold mkOfNameBounds GutsOfConstructor
  simp [h]

theorem mkOfNameBounds_name_of_empty (c : Nat) (l u : ℚ) (t : VariableType) :
    (mkOfNameBounds c "" l u t).1.name = "Var_" ++ toString c := rfl

theorem newArrayGo_snd (base : String) (l u : ℚ) (t : VariableType) :
    ∀ (m c i : Nat), (newArrayGo base l u t c i m).2 = c + m := by
  intro m
  induction m with
  | zero =>
    intro c i
    rfl
  | succ m ih =>
    intro c i
    simp only [newArrayGo]
    rw [mkOfNameBounds_snd, ih]
    omega

theorem newArrayGo_ids (base : String) (l u : ℚ) (t : VariableType) :
    ∀ (m c i : Nat), (newArrayGo base l u t c i m).1.map Variable.id = List.range' c m := by
  intro m
  induction m with
  | zero =>
    intro c i
    rfl
  | succ m ih =>
    intro c i
    simp only [newArrayGo, List.map_cons]
    rw [List.range'_succ, mkOfNameBounds_id, mkOfNameBounds_snd, ih]

theorem newArrayGo_names_of_base (base : String) (l u : ℚ) (t : VariableType)
    (hb : base ≠ "") :
    ∀ (m c i : Nat), (newArrayGo base l u t c i m).1.map Variable.name =
      (List.range' i m).map fun j => base ++ "_" ++ toString j := by
  intro m
  induction m with
  | zero =>
    intro c i
    rfl
  | succ m ih =>
    intro c i
    simp only [newArrayGo, List.map_cons, if_pos hb]
    rw [List.range'_succ, List.map_cons, ih]
    congr 1
    exact mkOfNameBounds_name_of_ne _ _ _ _ _ (append_ne_empty _ _ (append_ne_empty _ _ hb))

theorem newArrayGo_names_of_empty (l u : ℚ) (t : VariableType) :
    ∀ (m c i : Nat), (newArrayGo "" l u t c i m).1.map Variable.name =
      (List.range' c m).map fun id => "Var_" ++ toString id := by
  intro m
  induction m with
  | zero =>
    intro c i
    rfl
  | succ m ih =>
    intro c i
    simp only [newArrayGo, List.map_cons]
    rw [List.range'_succ, List.map_cons, mkOfNameBounds_snd, ih]
    congr 1

end Variable
end Sonnet

namespace Sonnet
namespace Variable

theorem newMapGo_snd (base : String) (l u : ℚ) (t : VariableType) :
    ∀ (ks : List Nat) (c : Nat), (newMapGo base l u t c ks).2 = c + ks.length := by
  intro ks
  induction ks with
  | nil =>
    intro c
    rfl
  | cons k ks ih =>
    intro c
    simp only [newMapGo]
    rw [mkOfNameBounds_snd, ih]
    simp
    omega

theorem newMapGo_keys (base : String) (l u : ℚ) (t : VariableType) :
    ∀ (ks : List Nat) (c : Nat), (newMapGo base l u t c ks).1.map Prod.fst = ks := by
  intro ks
  induction ks with
  | nil =>
    intro c
    rfl
  | cons k ks ih =>
    intro c
    simp only [newMapGo, List.map_cons]
    rw [ih]

theorem newMapGo_ids (base : String) (l u : ℚ) (t : VariableType) :
    ∀ (ks : List Nat) (c : Nat),
      (newMapGo base l u t c ks).1.map (fun p => p.2.id) = List.range' c ks.length := by
  intro ks
  induction ks with
  | nil =>
    intro c
    rfl
  | cons k ks ih =>
    intro c
    simp only [newMapGo, List.map_cons, List.length_cons]
    rw [List.range'_succ, mkOfNameBounds_snd, ih, mkOfNameBounds_id]

theorem newMapGo_names_of_base (base : String) (l u : ℚ) (t : VariableType)
    (hb : base ≠ "") :
    ∀ (ks : List Nat) (c : Nat),
      (newMapGo base l u t c ks).1.map (fun p => p.2.name) =
        ks.map fun k => base ++ "_" ++ toString k := by
  intro ks
  induction ks with
  | nil =>
    intro c
    rfl
  | cons k ks ih =>
    intro c
    simp only [newMapGo, List.map_cons, if_pos hb]
    rw [ih]
    congr 1
    exact mkOfNameBounds_name_of_ne _ _ _ _ _ (append_ne_empty _ _ (append_ne_empty _ _ hb))

theorem newMapGo_names_of_empty (l u : ℚ) (t : VariableType) :
    ∀ (ks : List Nat) (c : Nat),
      (newMapGo "" l u t c ks).1.map (fun p => p.2.name) =
        (List.range' c ks.length).map fun id => "Var_" ++ toString id := by
  intro ks
  induction ks with
  | nil =>
    intro c
    rfl
  | cons k ks ih =>
    intro c
    simp only [newMapGo, List.map_cons, List.length_cons]
    rw [List.range'_succ, List.map_cons, mkOfNameBounds_snd, ih]
    congr 1

end Variable

/-- Claim C9: the array factory over a count n with base name produces n
variables named `<base>_0` through `<base>_<n-1>` in input order, fresh
strictly-increasing ids from the threaded counter, and default `Var_<id>`
names when no base name is given; the keyed factory maps each input
element to its own newly created Variable, named `<base>_<key>` when a
base name is given and by the default rule otherwise. -/
theorem factory_naming_and_freshness (counter n : Nat) (keys : List Nat)
    (base : String) (l u : ℚ) (t : VariableType) :
    ((Variable.NewArray counter n base l u t).1.length = n) ∧
    ((Variable.NewArray counter n base l u t).1.map Variable.id = List.range' counter n) ∧
    (base ≠ "" → (Variable.NewArray counter n base l u t).1.map Variable.name =
      (List.range n).map fun i => base ++ "_" ++ toString i) ∧
    (base = "" → (Variable.NewArray counter n base l u t).1.map Variable.name =
      (List.range' counter n).map fun id => "Var_" ++ toString id) ∧
    ((Variable.NewMap counter keys base l u t).1.map Prod.fst = keys) ∧
    ((Variable.NewMap counter keys base l u t).1.map (fun p => p.2.id) =
      List.range' counter keys.length) ∧
    (base ≠ "" → (Variable.NewMap counter keys base l u t).1.map (fun p => p.2.name) =
      keys.map fun k => base ++ "_" ++ toString k) ∧
    (base = "" → (Variable.NewMap counter keys base l u t).1.map (fun p => p.2.name) =
      (List.range' counter keys.length).map fun id => "Var_" ++ toString id) := by
  refine ⟨?_, ?_, ?_, ?_, ?_, ?_, ?_, ?_⟩
  · have h := Variable.newArrayGo_ids base l u t n counter 0
    have hlen := congrArg List.length h
    simpa using hlen
  · exact Variable.newArrayGo_ids base l u t n counter 0
  · intro hb
    rw [List.range_eq_range']
    exact Variable.newArrayGo_names_of_base base l u t hb n counter 0
  · intro hb
    subst hb
    exact Variable.newArrayGo_names_of_empty l u t n counter 0
  · exact Variable.newMapGo_keys base l u t keys counter
  · exact Variable.newMapGo_ids base l u t keys counter
  · intro hb
    exact Variable.newMapGo_names_of_base base l u t hb keys counter
  · intro hb
    subst hb
    exact Variable.newMapGo_names_of_empty l u t keys counter

/-- Concrete runs of the factories: three array variables named x_0..x_2,
default names without a base name, and a keyed factory over keys 5 and 9. -/
theorem factory_naming_and_freshness_witness :
    ((Variable.NewArray 4 3 "x" 0 10 VariableType.Continuous).1.map Variable.name =
      ["x_0", "x_1", "x_2"]) ∧
    ((Variable.NewArray 4 3 "" 0 10 VariableType.Continuous).1.map Variable.name =
      ["Var_4", "Var_5", "Var_6"]) ∧
    ((Variable.NewMap 2 [5, 9] "y" 0 10 VariableType.Integer).1.map Prod.fst = [5, 9]) ∧
    ((Variable.NewMap 2 [5, 9] "y" 0 10 VariableType.Integer).1.map (fun p => p.2.name) =
      ["y_5", "y_9"]) ∧
    ((Variable.NewMap 2 [5, 9] "y" 0 10 VariableType.Integer).1.map (fun p => p.2.id) =
      [2, 3]) := by
  have hx := factory_naming_and_freshness 4 3 [] "x" 0 10 VariableType.Continuous
  have he := factory_naming_and_freshness 4 3 [] "" 0 10 VariableType.Continuous
  have hy := factory_naming_and_freshness 2 0 [5, 9] "y" 0 10 VariableType.Integer
  refine ⟨(hx.2.2.1 (by decide)).trans (by decide),
    (he.2.2.2.1 rfl).trans (by decide),
    hy.2.2.2.2.1,
    (hy.2.2.2.2.2.2.1 (by decide)).trans (by decide),
    (hy.2.2.2.2.2.1).trans (by decide)⟩

end Sonnet

namespace Sonnet

/-- The claim that Assign is the only path by which value ever changes is
false on the code: the public Value setter overwrites the value of the
sample variable directly, with no solver assignment recorded. -/
theorem value_setter_counterexample :
    sampleVar.value = 0 ∧ (sampleVar.setValue 3).value = 3 ∧
    (sampleVar.setValue 3).assignedSolver = none := by decide

/-- Claim C5 (amended): Assign records the solver/offset pair via the base
entity-assignment contract and overwrites value and reducedCost;
reducedCost has no other mutation path among the entity's operations, but
value is also settable directly through the public Value setter. -/
theorem assign_records_and_overwrites (x : Variable) (solver offset : Nat)
    (v rc w : ℚ) (t : VariableType) (n : String) :
    ((x.Assign solver offset v rc).assignedSolver = some solver) ∧
    ((x.Assign solver offset v rc).assignedOffset = some offset) ∧
    ((x.Assign solver offset v rc).value = v) ∧
    ((x.Assign solver offset v rc).reducedCost = rc) ∧
    ((x.setValue w).value = w) ∧
    ((x.setValue w).reducedCost = x.reducedCost) ∧
    ((x.setUpper w).1.reducedCost = x.reducedCost ∧ (x.setUpper w).1.value = x.value) ∧
    ((x.setLower w).1.reducedCost = x.reducedCost ∧ (x.setLower w).1.value = x.value) ∧
    ((x.setType t).1.reducedCost = x.reducedCost ∧ (x.setType t).1.value = x.value) ∧
    ((x.setName n).1.reducedCost = x.reducedCost ∧ (x.setName n).1.value = x.value) ∧
    ((x.Freeze).2.1.reducedCost = x.reducedCost ∧ (x.Freeze).2.1.value = x.value) ∧
    ((x.UnFreeze).2.1.reducedCost = x.reducedCost ∧ (x.UnFreeze).2.1.value = x.value) := by
  refine ⟨rfl, rfl, rfl, rfl, rfl, rfl, ?_, ?_, ?_, ?_, ?_, ?_⟩
  · unfold Variable.setUpper
    split
    · exact ⟨rfl, rfl⟩
    · exact ⟨rfl, rfl⟩
  · unfold Variable.setLower
    split
    · exact ⟨rfl, rfl⟩
    · exact ⟨rfl, rfl⟩
  · unfold Variable.setType
    split
    · exact ⟨rfl, rfl⟩
    · exact ⟨rfl, rfl⟩
  · unfold Variable.setName
    split
    · exact ⟨rfl, rfl⟩
    · exact ⟨rfl, rfl⟩
  · simp only [Variable.Freeze]
    split
    · exact ⟨rfl, rfl⟩
    · exact ⟨rfl, rfl⟩
  · simp only [Variable.UnFreeze]
    split
    · split
      · exact ⟨rfl, rfl⟩
      · exact ⟨rfl, rfl⟩
    · exact ⟨rfl, rfl⟩

/-- Claim C6: reading Value of a variable that no solver has assigned is a
distinct error in debug-instrumented builds rather than silently returning
a number. -/
theorem unassigned_value_debug_error (x : Variable) (h : x.Assigned = false) :
    Variable.ValueGet true x = Except.error "Variable has no assigned model!" := by
  unfold Variable.ValueGet
  rw [if_pos ⟨rfl, h⟩]

/-- Concrete run: the freshly constructed sample variable has no assigned
solver and reading its Value in a debug build fails with the distinct
exception message. -/
theorem unassigned_value_debug_error_witness :
    sampleVar.Assigned = false ∧
    Variable.ValueGet true sampleVar = Except.error "Variable has no assigned model!" :=
  ⟨by decide, unassigned_value_debug_error sampleVar (by decide)⟩

/-- Claim C7: IsFeasible returns true iff the value lies within the bounds
under the tolerance-aware between check and, for Integer variables, is
additionally integral under the tolerance-aware integrality check; in
particular it is false when the value is out of bounds and false for an
Integer variable with a non-integral value. -/
theorem isFeasible_characterization (x : Variable) :
    (x.IsFeasible = true ↔
      (MathUtils.isBetween x.value x.lower x.upper = true ∧
       (x.type = VariableType.Integer → MathUtils.isInteger x.value = true))) ∧
    (MathUtils.isBetween x.value x.lower x.upper = false → x.IsFeasible = false) ∧
    (x.type = VariableType.Integer → MathUtils.isInteger x.value = false →
      x.IsFeasible = false) := by
  cases hbtw : MathUtils.isBetween x.value x.lower x.upper
  · simp [Variable.IsFeasible, hbtw]
  · cases hint : MathUtils.isInteger x.value
    · by_cases hty : x.type = VariableType.Integer
      · simp [Variable.IsFeasible, hbtw, hint, hty]
      · simp [Variable.IsFeasible, hbtw, hint, hty]
    · simp [Variable.IsFeasible, hbtw, hint]

/-- Concrete runs of IsFeasible: a Continuous in-bounds variable is
feasible, a Continuous out-of-bounds value is not, and an Integer variable
with fractional value 3/2 is not despite being within bounds. -/
theorem isFeasible_characterization_witness :
    sampleVar.IsFeasible = true ∧
    Variable.IsFeasible { sampleVar with value := 11 } = false ∧
    Variable.IsFeasible { sampleVar with value := mkRat 3 2, type := VariableType.Integer }
      = false := by
  refine ⟨?_, ?_, ?_⟩
  · exact ((isFeasible_characterization sampleVar).1).mpr
      ⟨by decide, fun h => absurd h (by decide)⟩
  · exact (isFeasible_characterization _).2.1 (by decide)
  · exact (isFeasible_characterization _).2.2 (by decide) (by decide)

/-- Claim C10: every not-equal operator between a Variable and a constant
or between two Variables fails distinctly with the SonnetException message
and never produces a constraint, while every equality operator produces a
constraint object. -/
theorem neq_operator_fails_eq_builds (c : ℚ) (x y : Variable) :
    opNeqConstVar c x = Except.error "Cannot use != operator" ∧
    opNeqVarConst x c = Except.error "Cannot use != operator" ∧
    opNeqVarVar x y = Except.error "Cannot use != operator" ∧
    (∃ con : Constraint, opEqConstVar c x = Except.ok con ∧ con.kind = RelationKind.eq) ∧
    (∃ con : Constraint, opEqVarConst x c = Except.ok con ∧ con.kind = RelationKind.eq) ∧
    (∃ con : Constraint, opEqVarVar x y = Except.ok con ∧ con.kind = RelationKind.eq) := by
  exact ⟨rfl, rfl, rfl, ⟨_, rfl, rfl⟩, ⟨_, rfl, rfl⟩, ⟨_, rfl, rfl⟩⟩

end Sonnet
